import Mathlib

/-!
Shallow embedding of the connected-mode binding logic of the SonarLint
VS Code extension (src/connected/binding.ts and src/extension.ts).

VS Code host state visible to the code under study is modelled explicitly:
each workspace folder carries a stored value for the configuration key
sonarlint.connectedMode.project (a ProjectBinding object; clearing the
setting restores the registered default, an object whose fields are all
absent, modelled as empty strings since JavaScript truthiness treats the
empty string and undefined alike), and the workspace Memento holds an
optional string list under the doNotAskAboutAutoBindingForFolder flag.
-/

namespace SonarLint

/-- A VS Code workspace folder: its display name and the string form of
its URI (folder.uri.toString()). -/
structure WorkspaceFolder where
  name : String
  uri : String
deriving DecidableEq, Repr

/-- The ProjectBinding interface of binding.ts: projectKey plus the
optional serverId and connectionId fields; absent fields are modelled as
"" because the code only tests them for JavaScript truthiness. -/
structure ProjectBinding where
  projectKey : String
  serverId : String
  connectionId : String
deriving DecidableEq, Repr

/-- The value of the sonarlint.connectedMode.project setting when nothing
is stored: the registered default object with no field set. -/
def emptyBinding : ProjectBinding := ⟨"", "", ""⟩

/-- The BoundFolder interface of binding.ts. -/
structure BoundFolder where
  folder : WorkspaceFolder
  binding : ProjectBinding
deriving DecidableEq, Repr

/-- The host state the BindingService reads and writes: the list of open
workspace folders, the per-folder stored binding setting, and the
workspace-state entry behind DO_NOT_ASK_ABOUT_AUTO_BINDING_FOR_FOLDER_FLAG
(none when the Memento has no value for the key). -/
structure Workspace where
  folders : List WorkspaceFolder
  config : WorkspaceFolder → ProjectBinding
  doNotAskAboutAutoBindingForFolder : Option (List String)

def DEFAULT_CONNECTION_ID : String := "<default>"

/-- The connection id under which getAllBindings files a folder:
binding.connectionId || binding.serverId || DEFAULT_CONNECTION_ID. -/
def effectiveConnectionId (b : ProjectBinding) : String :=
  if b.connectionId ≠ "" then b.connectionId
  else if b.serverId ≠ "" then b.serverId
  else DEFAULT_CONNECTION_ID

/-- JavaScript Map lookup (insertion-ordered association list). -/
def mapGet {β : Type} (m : List (String × β)) (k : String) : Option β :=
  match m with
  | [] => none
  | (k', v) :: rest => if k' = k then some v else mapGet rest k

/-- The `if (!m.has(k)) m.set(k, d); f(m.get(k))` idiom of getAllBindings
on a JavaScript Map: mutate the value at k in place, inserting d first
when the key is absent (a fresh key lands at the end, preserving
insertion order). -/
def mapUpdate {β : Type} (m : List (String × β)) (k : String) (d : β) (f : β → β) :
    List (String × β) :=
  match m with
  | [] => [(k, f d)]
  | (k', v) :: rest => if k' = k then (k', f v) :: rest else (k', v) :: mapUpdate rest k d f

/-- The loop body of BindingService.getAllBindings: when the folder's
stored binding has a truthy projectKey, file ⟨folder, binding⟩ under the
effective connection id and the project key. -/
def addFolderBinding (ws : Workspace)
    (bindingsPerConnectionId : List (String × List (String × List BoundFolder)))
    (folder : WorkspaceFolder) : List (String × List (String × List BoundFolder)) :=
  let binding := ws.config folder
  let projectKey := binding.projectKey
  if projectKey ≠ "" then
    mapUpdate bindingsPerConnectionId (effectiveConnectionId binding) []
      (fun connectionBindingsPerProjectKey =>
        mapUpdate connectionBindingsPerProjectKey projectKey []
          (fun arr => arr ++ [⟨folder, binding⟩]))
  else bindingsPerConnectionId

/-- BindingService.getAllBindings: walk the workspace folders, keeping
those whose stored binding has a truthy projectKey, grouped per effective
connection id and then per project key. -/
def getAllBindings (ws : Workspace) : List (String × List (String × List BoundFolder)) :=
  ws.folders.foldl (addFolderBinding ws) []

/-- Whether the result of getAllBindings lists folder f under connection
id c and project key p. -/
def bindingListed (m : List (String × List (String × List BoundFolder)))
    (c p : String) (f : WorkspaceFolder) : Bool :=
  match mapGet m c with
  | none => false
  | some inner =>
    match mapGet inner p with
    | none => false
    | some arr => arr.any (fun bf => decide (bf.folder = f))

/-- BindingService.saveBinding: overwrite the folder's
sonarlint.connectedMode.project setting with { connectionId, projectKey }
(no serverId field is written). -/
def saveBinding (ws : Workspace) (projectKey : String) (connectionId : String)
    (workspaceFolder : WorkspaceFolder) : Workspace :=
  { ws with
    config := fun g =>
      if g = workspaceFolder then
        { projectKey := projectKey, serverId := "", connectionId := connectionId }
      else ws.config g }

/-- BindingService.deleteBinding: clear the folder's
sonarlint.connectedMode.project setting at the workspace-folder level,
restoring the registered default. -/
def deleteBinding (ws : Workspace) (folder : WorkspaceFolder) : Workspace :=
  { ws with config := fun g => if g = folder then emptyBinding else ws.config g }

/-- BindingService.deleteBindingsForConnection: look up the bindings
grouped under connection.id || DEFAULT_CONNECTION_ID in getAllBindings
and delete the binding of every folder found there. The connection's id
is modelled as a string, "" standing for an absent id. -/
def deleteBindingsForConnection (ws : Workspace) (connectionIdRaw : String) : Workspace :=
  match mapGet (getAllBindings ws)
      (if connectionIdRaw = "" then DEFAULT_CONNECTION_ID else connectionIdRaw) with
  | none => ws
  | some bindingsForConnection =>
    bindingsForConnection.foldl
      (fun w entry => entry.2.foldl (fun w' bf => deleteBinding w' bf.folder) w)
      ws

/-- BindingService.isBound: the stored binding's projectKey is truthy. -/
def isBound (ws : Workspace) (workspaceFolder : WorkspaceFolder) : Bool :=
  (ws.config workspaceFolder).projectKey ≠ ""

/-- BindingService.shouldBeAutoBound: the folder is not bound and its URI
string is not in the doNotAskAboutAutoBindingForFolder list (defaulting
to the empty list). -/
def shouldBeAutoBound (ws : Workspace) (workspaceFolder : WorkspaceFolder) : Bool :=
  let foldersToBeIgnored := ws.doNotAskAboutAutoBindingForFolder.getD []
  !(isBound ws workspaceFolder) && !(foldersToBeIgnored.contains workspaceFolder.uri)

/-- A VS Code quick-pick item as used by binding.ts: a label and an
optional description (the buttons attached in getRemoteProjectsItems
carry no data the studied code reads back, so they are omitted). -/
structure QuickPickItem where
  label : String
  description : Option String
deriving DecidableEq, Repr

/-- BindingService.deduplicateQuickPickItems: for each suggested item,
drop from the remote list every item with a strictly equal description
(strict !== on the optional field, so two absent descriptions compare
equal). -/
def deduplicateQuickPickItems (suggestedProjects remoteProjects : List QuickPickItem) :
    List QuickPickItem :=
  suggestedProjects.foldl
    (fun remote sp => remote.filter (fun rp => decide (rp.description ≠ sp.description)))
    remoteProjects

/-- The outcome of BindingService.getRemoteProjectsItems: the returned
quick-pick item list and whether the catch branch showed its error
message. -/
structure RemoteProjectsItemsResult where
  items : List QuickPickItem
  errorMessageShown : Bool
deriving DecidableEq, Repr

/-- BindingService.getRemoteProjectsItems. The language-client request is
passed as its outcome: .ok with the remote projects map as an
insertion-ordered (projectKey, projectName) entry list (the code turns a
plain object into a Map with the same entries), .error when the request
threw. The comparator i1.label.localeCompare(i2.label, 'en') is a host
API and is abstracted as a boolean relation le on labels standing for
localeCompare ≤ 0; Array.prototype.sort with a consistent comparator is
modelled as insertion sort by that relation. -/
def getRemoteProjectsItems (le : String → String → Bool)
    (remoteProjectsResponse : Except Unit (List (String × String))) :
    RemoteProjectsItemsResult :=
  match remoteProjectsResponse with
  | .error _ =>
    { items := List.insertionSort (fun i1 i2 => le i1.label i2.label = true) [],
      errorMessageShown := true }
  | .ok remoteProjects =>
    { items :=
        List.insertionSort (fun i1 i2 => le i1.label i2.label = true)
          (remoteProjects.map (fun kv => { label := kv.2, description := some kv.1 })),
      errorMessageShown := false }

/-- BindingService.showFolderSelectionQuickPickOrReturnDefaultSelection.
The host quick-pick is abstracted as the user's choice function over the
offered names; the boolean records whether a quick-pick was shown. -/
def showFolderSelectionQuickPickOrReturnDefaultSelection
    (showQuickPick : List String → Option String)
    (workspaceFolders : List WorkspaceFolder) : Option String × Bool :=
  if workspaceFolders.length = 1 then
    (workspaceFolders.head?.map (fun f => f.name), false)
  else
    (showQuickPick (workspaceFolders.map (fun f => f.name)), true)

/-- The allowed remote authorities of cleanRemoteName in extension.ts. -/
def allowedRemoteAuthorities : List String :=
  ["ssh-remote", "dev-container", "attached-container", "wsl", "codespaces"]

/-- cleanRemoteName of extension.ts: a falsy input (undefined or "")
maps to "none"; otherwise ret starts as "other" and each allowed
authority that is a leading substring of the input (indexOf === 0)
overwrites it in list order. -/
def cleanRemoteName (remoteName : Option String) : String :=
  match remoteName with
  | none => "none"
  | some s =>
    if s = "" then "none"
    else
      allowedRemoteAuthorities.foldl
        (fun ret res => if s.startsWith res then res else ret) "other"

/-- A git repository as exposed by the vscode.git extension API: only
rootUri.fsPath is read by the studied code. -/
structure GitRepo where
  rootUriFsPath : String
deriving DecidableEq, Repr

/-- The vscode.git extension API object: git.path and getRepository. -/
structure GitApi where
  gitPath : String
  getRepository : String → Option GitRepo

/-- The exports of the vscode.git extension; getAPI(1) may throw. -/
structure GitExtensionApi where
  getAPI : Nat → Except Unit GitApi

/-- The VS Code host state read by performIsIgnoredCheck: the workspace
folder containing a parsed URI, the result of
extensions.getExtension('vscode.git') (outer none when the extension is
not installed, inner none when its exports value is null or undefined),
and Uri.fsPath rendering. -/
structure ScmHost where
  getWorkspaceFolder : String → Option WorkspaceFolder
  gitExtension : Option (Option GitExtensionApi)
  fsPath : String → String

/-- performIsIgnoredCheck of extension.ts. Asynchronous completion is
modelled with Except: .ok is a resolved promise, .error a rejected one.
Accessing .exports on the result of getExtension throws a TypeError when
the extension is not installed; that access happens before the try/catch,
so it rejects the returned promise. Inside the try, any throw from
getAPI or from the scmCheck callback resolves to false, as do a missing
workspace folder, a null exports value and a file outside any git
repository. -/
def performIsIgnoredCheck (host : ScmHost)
    (scmCheck : String → String → Except Unit Bool) (fileUri : String) :
    Except Unit Bool :=
  match host.getWorkspaceFolder fileUri with
  | none => .ok false
  | some _ =>
    match host.gitExtension with
    | none => .error ()
    | some exportsValue =>
      match exportsValue with
      | none => .ok false
      | some gitExtensionApi =>
        match gitExtensionApi.getAPI 1 with
        | .error _ => .ok false
        | .ok gitApi =>
          match gitApi.getRepository fileUri with
          | none => .ok false
          | some repo =>
            match scmCheck repo.rootUriFsPath
                ("\"" ++ gitApi.gitPath ++ "\" check-ignore \"" ++ host.fsPath fileUri ++ "\"") with
            | .error _ => .ok false
            | .ok fileIgnoredForFolder => .ok fileIgnoredForFolder

/-! ### Lemmas about the JavaScript-Map model -/

theorem mapGet_mapUpdate {β : Type} (m : List (String × β)) (k j : String) (d : β) (f : β → β) :
    mapGet (mapUpdate m k d f) j =
      if k = j then some (f ((mapGet m k).getD d)) else mapGet m j := by
  induction m with
  | nil =>
    by_cases h : k = j <;> simp [mapUpdate, mapGet, h]
  | cons hd tl ih =>
    obtain ⟨k', v⟩ := hd
    by_cases hk : k' = k
    · subst hk
      by_cases hj : k' = j <;> simp [mapUpdate, mapGet, hj]
    · by_cases hj : k' = j
      · have hkj : ¬(k = j) := fun h => hk (hj.trans h.symm)
        have hjk : ¬(j = k) := fun h => hkj h.symm
        simp [mapUpdate, mapGet, hk, hj, hkj, hjk]
      · simp [mapUpdate, mapGet, hk, hj, ih]

/-- The folder array that a getAllBindings result files under connection
id c and project key p (empty when either key is absent). -/
def listedFolders (m : List (String × List (String × List BoundFolder))) (c p : String) :
    List BoundFolder :=
  (mapGet ((mapGet m c).getD []) p).getD []

theorem bindingListed_eq_listedFolders
    (m : List (String × List (String × List BoundFolder))) (c p : String)
    (f : WorkspaceFolder) :
    bindingListed m c p f = (listedFolders m c p).any (fun bf => decide (bf.folder = f)) := by
  unfold bindingListed listedFolders
  cases h : mapGet m c with
  | none => simp [h, mapGet]
  | some inner => cases h2 : mapGet inner p <;> simp [h, h2]

theorem listedFolders_addFolderBinding (ws : Workspace)
    (acc : List (String × List (String × List BoundFolder)))
    (g : WorkspaceFolder) (c p : String) :
    listedFolders (addFolderBinding ws acc g) c p =
      if (ws.config g).projectKey ≠ "" ∧ effectiveConnectionId (ws.config g) = c ∧
          (ws.config g).projectKey = p
      then listedFolders acc c p ++ [⟨g, ws.config g⟩]
      else listedFolders acc c p := by
  unfold addFolderBinding listedFolders
  by_cases hpk : (ws.config g).projectKey = ""
  · simp [hpk]
  · simp only [ne_eq, hpk, not_false_eq_true, if_true]
    rw [mapGet_mapUpdate]
    by_cases hc : effectiveConnectionId (ws.config g) = c
    · simp only [hc, if_true, Option.getD_some]
      rw [mapGet_mapUpdate]
      by_cases hp : (ws.config g).projectKey = p
      · simp [hp, hpk, hc]
      · simp [hp, hpk, hc]
    · simp [hc, hpk]

theorem bindingListed_addFolderBinding (ws : Workspace)
    (acc : List (String × List (String × List BoundFolder)))
    (g : WorkspaceFolder) (c p : String) (f : WorkspaceFolder) :
    bindingListed (addFolderBinding ws acc g) c p f = true ↔
      (bindingListed acc c p f = true ∨
        (f = g ∧ (ws.config f).projectKey ≠ "" ∧
          effectiveConnectionId (ws.config f) = c ∧ (ws.config f).projectKey = p)) := by
  rw [bindingListed_eq_listedFolders, bindingListed_eq_listedFolders,
    listedFolders_addFolderBinding]
  by_cases hfg : f = g
  · subst hfg
    by_cases h : (ws.config f).projectKey ≠ "" ∧ effectiveConnectionId (ws.config f) = c ∧
        (ws.config f).projectKey = p
    · rw [if_pos h]
      simp only [List.any_append, List.any_cons, List.any_nil, Bool.or_false, Bool.or_eq_true,
        decide_eq_true_eq]
      simp [h]
      exact Or.inr (h.2.2 ▸ h.1)
    · rw [if_neg h]
      simp [h]
  · have hne : ¬(g = f) := fun h => hfg h.symm
    by_cases h : (ws.config g).projectKey ≠ "" ∧ effectiveConnectionId (ws.config g) = c ∧
        (ws.config g).projectKey = p
    · rw [if_pos h]
      simp [List.any_append, hne, hfg]
    · rw [if_neg h]
      simp [hfg]

theorem bindingListed_foldl (ws : Workspace) (l : List WorkspaceFolder)
    (acc : List (String × List (String × List BoundFolder))) (c p : String)
    (f : WorkspaceFolder) :
    bindingListed (l.foldl (addFolderBinding ws) acc) c p f = true ↔
      (bindingListed acc c p f = true ∨
        (f ∈ l ∧ (ws.config f).projectKey ≠ "" ∧
          effectiveConnectionId (ws.config f) = c ∧ (ws.config f).projectKey = p)) := by
  induction l generalizing acc with
  | nil => simp
  | cons a t ih =>
    simp only [List.foldl_cons]
    rw [ih, bindingListed_addFolderBinding]
    simp only [List.mem_cons]
    tauto

/-- Full characterization of getAllBindings membership: folder f is
listed under connection id c and project key p exactly when f is a
workspace folder whose stored binding has a truthy projectKey equal to
p, with effective connection id c. -/
theorem bindingListed_getAllBindings (ws : Workspace) (c p : String) (f : WorkspaceFolder) :
    bindingListed (getAllBindings ws) c p f = true ↔
      (f ∈ ws.folders ∧ (ws.config f).projectKey ≠ "" ∧
        effectiveConnectionId (ws.config f) = c ∧ (ws.config f).projectKey = p) := by
  unfold getAllBindings
  rw [bindingListed_foldl]
  simp [bindingListed, mapGet]

/-! ### Lemmas about deleteBindingsForConnection -/

/-- The per-project-key entry list a getAllBindings result files under
connection id c (empty when the key is absent). -/
def connectionEntries (m : List (String × List (String × List BoundFolder)))
    (c : String) : List (String × List BoundFolder) :=
  (mapGet m c).getD []

/-- Whether a getAllBindings result files folder g anywhere under
connection id c: exactly the folders deleteBindingsForConnection deletes
for that connection id. -/
def folderInConnection (m : List (String × List (String × List BoundFolder)))
    (c : String) (g : WorkspaceFolder) : Bool :=
  (connectionEntries m c).any (fun entry => entry.2.any (fun bf => decide (bf.folder = g)))

theorem connectionEntries_addFolderBinding (ws : Workspace)
    (acc : List (String × List (String × List BoundFolder)))
    (a : WorkspaceFolder) (c : String) :
    connectionEntries (addFolderBinding ws acc a) c =
      if (ws.config a).projectKey ≠ "" ∧ effectiveConnectionId (ws.config a) = c then
        mapUpdate (connectionEntries acc c) (ws.config a).projectKey []
          (fun arr => arr ++ [⟨a, ws.config a⟩])
      else connectionEntries acc c := by
  unfold addFolderBinding connectionEntries
  by_cases hpk : (ws.config a).projectKey = ""
  · simp [hpk]
  · simp only [ne_eq, hpk, not_false_eq_true, if_true, true_and]
    rw [mapGet_mapUpdate]
    by_cases hc : effectiveConnectionId (ws.config a) = c
    · simp [hc]
    · simp [hc]

theorem any_mapUpdate_append (q : BoundFolder → Bool)
    (m : List (String × List BoundFolder)) (k : String) (l : List BoundFolder) :
    ((mapUpdate m k [] (fun arr => arr ++ l)).any (fun e => e.2.any q) = true) ↔
      (m.any (fun e => e.2.any q) = true ∨ l.any q = true) := by
  induction m with
  | nil => simp [mapUpdate]
  | cons hd tl ih =>
    obtain ⟨k', v⟩ := hd
    by_cases h : k' = k
    · have step : mapUpdate ((k', v) :: tl) k [] (fun arr => arr ++ l) = (k', v ++ l) :: tl := by
        simp [mapUpdate, h]
      rw [step]
      simp only [List.any_cons, Bool.or_eq_true, List.any_append]
      tauto
    · have step : mapUpdate ((k', v) :: tl) k [] (fun arr => arr ++ l) =
          (k', v) :: mapUpdate tl k [] (fun arr => arr ++ l) := by
        simp [mapUpdate, h]
      rw [step]
      simp only [List.any_cons, Bool.or_eq_true]
      rw [ih]
      tauto

theorem folderInConnection_addFolderBinding (ws : Workspace)
    (acc : List (String × List (String × List BoundFolder)))
    (a : WorkspaceFolder) (c : String) (g : WorkspaceFolder) :
    folderInConnection (addFolderBinding ws acc a) c g = true ↔
      (folderInConnection acc c g = true ∨
        (g = a ∧ (ws.config a).projectKey ≠ "" ∧ effectiveConnectionId (ws.config a) = c)) := by
  unfold folderInConnection
  rw [connectionEntries_addFolderBinding]
  by_cases h : (ws.config a).projectKey ≠ "" ∧ effectiveConnectionId (ws.config a) = c
  · rw [if_pos h, any_mapUpdate_append]
    simp only [List.any_cons, List.any_nil, Bool.or_false, decide_eq_true_eq]
    constructor
    · rintro (hl | hag)
      · exact Or.inl hl
      · exact Or.inr ⟨hag.symm, h⟩
    · rintro (hl | ⟨hga, _⟩)
      · exact Or.inl hl
      · exact Or.inr hga.symm
  · rw [if_neg h]
    constructor
    · exact fun hl => Or.inl hl
    · rintro (hl | ⟨hga, hrest⟩)
      · exact hl
      · exact absurd hrest h

theorem folderInConnection_foldl (ws : Workspace) (l : List WorkspaceFolder)
    (acc : List (String × List (String × List BoundFolder))) (c : String)
    (g : WorkspaceFolder) :
    folderInConnection (l.foldl (addFolderBinding ws) acc) c g = true ↔
      (folderInConnection acc c g = true ∨
        (g ∈ l ∧ (ws.config g).projectKey ≠ "" ∧ effectiveConnectionId (ws.config g) = c)) := by
  induction l generalizing acc with
  | nil => simp
  | cons a t ih =>
    simp only [List.foldl_cons]
    rw [ih, folderInConnection_addFolderBinding]
    simp only [List.mem_cons]
    constructor
    · rintro ((h | ⟨hga, hrest⟩) | ⟨hmem, hrest⟩)
      · exact Or.inl h
      · subst hga
        exact Or.inr ⟨Or.inl rfl, hrest⟩
      · exact Or.inr ⟨Or.inr hmem, hrest⟩
    · rintro (h | ⟨hga | hmem, hrest⟩)
      · exact Or.inl (Or.inl h)
      · subst hga
        exact Or.inl (Or.inr ⟨rfl, hrest⟩)
      · exact Or.inr ⟨hmem, hrest⟩

/-- Characterization of the folders filed under connection id c. -/
theorem folderInConnection_getAllBindings (ws : Workspace) (c : String) (g : WorkspaceFolder) :
    folderInConnection (getAllBindings ws) c g = true ↔
      (g ∈ ws.folders ∧ (ws.config g).projectKey ≠ "" ∧
        effectiveConnectionId (ws.config g) = c) := by
  unfold getAllBindings
  rw [folderInConnection_foldl]
  simp [folderInConnection, connectionEntries, mapGet]

theorem config_foldl_deleteBinding (l : List BoundFolder) (w : Workspace)
    (g : WorkspaceFolder) :
    (l.foldl (fun w' bf => deleteBinding w' bf.folder) w).config g =
      if l.any (fun bf => decide (bf.folder = g)) then emptyBinding else w.config g := by
  induction l generalizing w with
  | nil => simp
  | cons bf t ih =>
    simp only [List.foldl_cons, List.any_cons, Bool.or_eq_true]
    rw [ih]
    by_cases hbf : bf.folder = g
    · subst hbf
      by_cases ht : t.any (fun x => decide (x.folder = bf.folder)) = true
      · simp [ht]
      · simp [ht, deleteBinding]
    · have hgb : ¬(g = bf.folder) := fun h => hbf h.symm
      by_cases ht : t.any (fun bf => decide (bf.folder = g)) = true
      · simp [ht, hbf]
      · simp [ht, hbf, hgb, deleteBinding]

theorem config_foldl_entries (inner : List (String × List BoundFolder)) (w : Workspace)
    (g : WorkspaceFolder) :
    ((inner.foldl
        (fun w entry => entry.2.foldl (fun w' bf => deleteBinding w' bf.folder) w)
        w).config g) =
      if inner.any (fun e => e.2.any (fun bf => decide (bf.folder = g)))
      then emptyBinding else w.config g := by
  induction inner generalizing w with
  | nil => simp
  | cons e t ih =>
    simp only [List.foldl_cons, List.any_cons, Bool.or_eq_true]
    rw [ih, config_foldl_deleteBinding]
    by_cases he : e.2.any (fun bf => decide (bf.folder = g)) = true
    · by_cases ht : t.any (fun e => e.2.any (fun bf => decide (bf.folder = g))) = true
      · simp [he, ht]
      · simp [he, ht]
    · by_cases ht : t.any (fun e => e.2.any (fun bf => decide (bf.folder = g))) = true
      · simp [he, ht]
      · simp [he, ht]

/-- The overall effect of deleteBindingsForConnection on stored settings:
a folder's setting is cleared exactly when getAllBindings files it under
the target connection id. -/
theorem config_deleteBindingsForConnection (ws : Workspace) (connectionIdRaw : String)
    (g : WorkspaceFolder) :
    (deleteBindingsForConnection ws connectionIdRaw).config g =
      if folderInConnection (getAllBindings ws)
          (if connectionIdRaw = "" then DEFAULT_CONNECTION_ID else connectionIdRaw) g
      then emptyBinding else ws.config g := by
  unfold deleteBindingsForConnection
  cases h : mapGet (getAllBindings ws)
      (if connectionIdRaw = "" then DEFAULT_CONNECTION_ID else connectionIdRaw) with
  | none => simp [folderInConnection, connectionEntries, h]
  | some inner =>
    simp only [h]
    rw [config_foldl_entries]
    unfold folderInConnection connectionEntries
    rw [h]
    rfl

/-! ### Claim theorems -/

/-- C1: round trip of saving and listing bindings: for every workspace
folder f, every non-empty projectKey p and every non-empty connectionId
c, after saveBinding(p, c, f) completes, getAllBindings returns a map in
which the entry for connection id c contains an entry for project key p
whose folder list contains f. -/
theorem saveBinding_then_getAllBindings_lists_folder (ws : Workspace)
    (p c : String) (f : WorkspaceFolder)
    (hp : p ≠ "") (hc : c ≠ "") (hf : f ∈ ws.folders) :
    bindingListed (getAllBindings (saveBinding ws p c f)) c p f = true := by
  rw [bindingListed_getAllBindings]
  have hcfg : (saveBinding ws p c f).config f =
      { projectKey := p, serverId := "", connectionId := c } := by
    simp [saveBinding]
  refine ⟨hf, ?_, ?_, ?_⟩ <;> rw [hcfg] <;> simp [effectiveConnectionId, hp, hc]

theorem saveBinding_then_getAllBindings_lists_folder_witness :
    bindingListed
      (getAllBindings
        (saveBinding
          { folders := [⟨"folderA", "file:///a"⟩], config := fun _ => emptyBinding,
            doNotAskAboutAutoBindingForFolder := none }
          "projA" "connA" ⟨"folderA", "file:///a"⟩))
      "connA" "projA" ⟨"folderA", "file:///a"⟩ = true :=
  saveBinding_then_getAllBindings_lists_folder _ "projA" "connA" ⟨"folderA", "file:///a"⟩
    (by decide) (by decide) (by simp)

/-- C2: getAllBindings includes a workspace folder exactly when that
folder's stored sonarlint.connectedMode.project binding has a non-empty
projectKey, and each included folder is placed under exactly one
connection id, the effective one (connectionId if non-empty, else
serverId if non-empty, else the literal DEFAULT_CONNECTION_ID), and
under exactly one project key, the binding's projectKey. -/
theorem getAllBindings_membership_spec (ws : Workspace) (c p : String) (f : WorkspaceFolder) :
    bindingListed (getAllBindings ws) c p f = true ↔
      (f ∈ ws.folders ∧ (ws.config f).projectKey ≠ "" ∧
        effectiveConnectionId (ws.config f) = c ∧ (ws.config f).projectKey = p) :=
  bindingListed_getAllBindings ws c p f

/-- C4 counterexample: a workspace folder whose stored setting has an
empty projectKey but the matching effective connection id keeps its
stored setting untouched by deleteBindingsForConnection, while the claim
as stated requires it to be cleared. -/
theorem deleteBindingsForConnection_counterexample :
    effectiveConnectionId
        (Workspace.config
          { folders := [⟨"folderA", "file:///a"⟩], config := fun _ => ⟨"", "", "connA"⟩,
            doNotAskAboutAutoBindingForFolder := none }
          ⟨"folderA", "file:///a"⟩) = "connA" ∧
    (deleteBindingsForConnection
        { folders := [⟨"folderA", "file:///a"⟩], config := fun _ => ⟨"", "", "connA"⟩,
          doNotAskAboutAutoBindingForFolder := none }
        "connA").config ⟨"folderA", "file:///a"⟩ ≠ emptyBinding := by
  decide

/-- C4 amended: after deleteBindingsForConnection(c) completes, every
workspace folder whose binding has a non-empty projectKey and whose
effective connection id equals c.id (or DEFAULT_CONNECTION_ID when c.id
is absent) has its sonarlint.connectedMode.project setting cleared, and
the binding settings of every other workspace folder are unchanged. -/
theorem deleteBindingsForConnection_amended (ws : Workspace) (connectionIdRaw : String)
    (g : WorkspaceFolder) (hg : g ∈ ws.folders) :
    (deleteBindingsForConnection ws connectionIdRaw).config g =
      if ((ws.config g).projectKey ≠ "" ∧
          effectiveConnectionId (ws.config g) =
            (if connectionIdRaw = "" then DEFAULT_CONNECTION_ID else connectionIdRaw))
      then emptyBinding else ws.config g := by
  by_cases h : ((ws.config g).projectKey ≠ "" ∧
      effectiveConnectionId (ws.config g) =
        (if connectionIdRaw = "" then DEFAULT_CONNECTION_ID else connectionIdRaw))
  · have hin : folderInConnection (getAllBindings ws)
        (if connectionIdRaw = "" then DEFAULT_CONNECTION_ID else connectionIdRaw) g = true :=
      (folderInConnection_getAllBindings ws _ g).mpr ⟨hg, h.1, h.2⟩
    rw [config_deleteBindingsForConnection, if_pos hin, if_pos h]
  · have hin : ¬(folderInConnection (getAllBindings ws)
        (if connectionIdRaw = "" then DEFAULT_CONNECTION_ID else connectionIdRaw) g = true) := by
      rw [folderInConnection_getAllBindings]
      exact fun hcontra => h ⟨hcontra.2.1, hcontra.2.2⟩
    rw [config_deleteBindingsForConnection, if_neg hin, if_neg h]

theorem deleteBindingsForConnection_amended_witness :
    (deleteBindingsForConnection
      { folders := [⟨"folderA", "file:///a"⟩],
        config := fun _ => ⟨"projA", "", "connA"⟩,
        doNotAskAboutAutoBindingForFolder := none } "connA").config ⟨"folderA", "file:///a"⟩ =
      emptyBinding := by
  have h := deleteBindingsForConnection_amended
    { folders := [⟨"folderA", "file:///a"⟩],
      config := fun _ => ⟨"projA", "", "connA"⟩,
      doNotAskAboutAutoBindingForFolder := none } "connA" ⟨"folderA", "file:///a"⟩ (by decide)
  rw [if_pos (by decide)] at h
  exact h

/-- C5: after deleteBinding(f) the folder's
sonarlint.connectedMode.project setting holds the cleared default value,
and consequently isBound(f) returns false. -/
theorem deleteBinding_clears_and_unbinds (ws : Workspace) (f : WorkspaceFolder) :
    (deleteBinding ws f).config f = emptyBinding ∧ isBound (deleteBinding ws f) f = false := by
  constructor
  · simp [deleteBinding]
  · simp [isBound, deleteBinding, emptyBinding]

/-- C3: deduplicateQuickPickItems(S, R) returns exactly those elements
of R whose description differs from the description of every element of
S, in their original relative order (filter preserves order); the pure
model also reflects that S itself is never mutated by the source's
forEach/filter combination. -/
theorem deduplicateQuickPickItems_spec (S R : List QuickPickItem) :
    deduplicateQuickPickItems S R =
      R.filter (fun rp => !(S.any (fun sp => decide (rp.description = sp.description)))) := by
  induction S generalizing R with
  | nil => simp [deduplicateQuickPickItems]
  | cons sp rest ih =>
    unfold deduplicateQuickPickItems at ih ⊢
    simp only [List.foldl_cons]
    rw [ih, List.filter_filter]
    congr 1
    funext rp
    simp only [List.any_cons, Bool.not_or]
    cases hd : decide (rp.description = sp.description) <;>
      cases ht : rest.any (fun sp => decide (rp.description = sp.description)) <;>
        simp_all

/-- C6: shouldBeAutoBound(f) returns true exactly when f's stored
binding has no non-empty projectKey and the string form of f's URI is
not in the doNotAskAboutAutoBindingForFolder list stored in workspace
state (defaulting to the empty list). -/
theorem shouldBeAutoBound_characterization (ws : Workspace) (f : WorkspaceFolder) :
    shouldBeAutoBound ws f = true ↔
      ((ws.config f).projectKey = "" ∧
        f.uri ∉ (ws.doNotAskAboutAutoBindingForFolder.getD [])) := by
  simp [shouldBeAutoBound, isBound]

/-- C7: with any consistent comparator (as localeCompare under the
English locale is), getRemoteProjectsItems returns items sorted in
non-decreasing label order, one item per remote project with the project
name as label and the project key as description; when the request to
the language client throws, it returns the empty list with the error
message shown instead of propagating the exception. -/
theorem getRemoteProjectsItems_spec (le : String → String → Bool)
    (htot : ∀ a b, le a b = true ∨ le b a = true)
    (htrans : ∀ a b c, le a b = true → le b c = true → le a c = true)
    (resp : Except Unit (List (String × String))) :
    List.Sorted (fun i1 i2 => le i1.label i2.label = true)
        ((getRemoteProjectsItems le resp).items) ∧
      (∀ e : Unit, resp = Except.error e →
        getRemoteProjectsItems le resp = ⟨[], true⟩) ∧
      (∀ m : List (String × String), resp = Except.ok m →
        ((getRemoteProjectsItems le resp).items.Perm
            (m.map (fun kv => ⟨kv.2, some kv.1⟩)) ∧
          (getRemoteProjectsItems le resp).errorMessageShown = false)) := by
  haveI : IsTotal QuickPickItem (fun i1 i2 => le i1.label i2.label = true) :=
    ⟨fun a b => htot a.label b.label⟩
  haveI : IsTrans QuickPickItem (fun i1 i2 => le i1.label i2.label = true) :=
    ⟨fun a b c hab hbc => htrans a.label b.label c.label hab hbc⟩
  refine ⟨?_, ?_, ?_⟩
  · cases resp with
    | error e => exact List.sorted_insertionSort _ _
    | ok m => exact List.sorted_insertionSort _ _
  · rintro e rfl
    rfl
  · rintro m rfl
    exact ⟨List.perm_insertionSort _ _, rfl⟩

theorem getRemoteProjectsItems_spec_witness :
    (getRemoteProjectsItems (fun a b => decide (a.length ≤ b.length))
        (Except.ok [("k1", "bb"), ("k2", "a")])).items.Perm
        ([("k1", "bb"), ("k2", "a")].map (fun kv => ⟨kv.2, some kv.1⟩)) ∧
      (getRemoteProjectsItems (fun a b => decide (a.length ≤ b.length))
        (Except.ok [("k1", "bb"), ("k2", "a")])).errorMessageShown = false :=
  (getRemoteProjectsItems_spec (fun a b => decide (a.length ≤ b.length))
      (fun a b => by
        rcases Nat.le_total a.length b.length with h | h
        · exact Or.inl (by simpa using h)
        · exact Or.inr (by simpa using h))
      (fun a b c hab hbc => by
        simp only [decide_eq_true_eq] at hab hbc ⊢
        exact Nat.le_trans hab hbc)
      (Except.ok [("k1", "bb"), ("k2", "a")])).2.2 _ rfl

/-- C8: with a non-empty folder list,
showFolderSelectionQuickPickOrReturnDefaultSelection returns the single
folder's name without showing any quick-pick when the list has exactly
one element, and otherwise shows a quick-pick over the names of all the
folders and returns the user's selection. -/
theorem showFolderSelectionQuickPick_spec (pick : List String → Option String)
    (workspaceFolders : List WorkspaceFolder) (hne : workspaceFolders ≠ []) :
    (workspaceFolders.length = 1 →
      showFolderSelectionQuickPickOrReturnDefaultSelection pick workspaceFolders =
        (some (workspaceFolders.head hne).name, false)) ∧
    (workspaceFolders.length ≠ 1 →
      showFolderSelectionQuickPickOrReturnDefaultSelection pick workspaceFolders =
        (pick (workspaceFolders.map (fun f => f.name)), true)) := by
  constructor
  · intro h1
    unfold showFolderSelectionQuickPickOrReturnDefaultSelection
    rw [if_pos h1, List.head?_eq_head hne]
    rfl
  · intro h2
    unfold showFolderSelectionQuickPickOrReturnDefaultSelection
    rw [if_neg h2]

theorem showFolderSelectionQuickPick_spec_witness :
    showFolderSelectionQuickPickOrReturnDefaultSelection (fun _ => some "chosen")
        [⟨"only", "file:///only"⟩] = (some "only", false) :=
  (showFolderSelectionQuickPick_spec (fun _ => some "chosen") [⟨"only", "file:///only"⟩]
      (by decide)).1 rfl

/-- The overwrite-on-match loop of cleanRemoteName computes the last
matching list element, defaulting to the initial value. -/
theorem foldl_pick_lastFilter (pred : String → Bool) (l : List String) (init : String) :
    l.foldl (fun ret res => if pred res then res else ret) init =
      (l.filter pred).getLastD init := by
  induction l generalizing init with
  | nil => rfl
  | cons a t ih =>
    simp only [List.foldl_cons, List.filter_cons]
    by_cases h : pred a = true
    · rw [if_pos h, if_pos h, List.getLastD_cons]
      exact ih a
    · rw [if_neg h, if_neg h]
      exact ih init

/-- The overwrite-on-match loop of cleanRemoteName only ever returns the
initial value or a list element. -/
theorem foldl_pick_mem (pred : String → Bool) (l : List String) (init : String) :
    l.foldl (fun ret res => if pred res then res else ret) init ∈ init :: l := by
  induction l generalizing init with
  | nil => simp
  | cons a t ih =>
    simp only [List.foldl_cons]
    by_cases h : pred a = true
    · rw [if_pos h]
      have hmem := ih a
      simp only [List.mem_cons] at hmem ⊢
      rcases hmem with h1 | h2
      · exact Or.inr (Or.inl h1)
      · exact Or.inr (Or.inr h2)
    · rw [if_neg h]
      have hmem := ih init
      simp only [List.mem_cons] at hmem ⊢
      rcases hmem with h1 | h2
      · exact Or.inl h1
      · exact Or.inr (Or.inr h2)

/-- C9: cleanRemoteName always lands in the fixed set
{none, other} ∪ allowedRemoteAuthorities; it returns "none" exactly for
an absent or empty input; and on any other input it returns the last
allowed remote authority that is a prefix of the input, or "other" when
none is. -/
theorem cleanRemoteName_spec (x : Option String) :
    cleanRemoteName x ∈ ("none" :: "other" :: allowedRemoteAuthorities) ∧
      (cleanRemoteName x = "none" ↔ (x = none ∨ x = some "")) ∧
      cleanRemoteName x =
        (match x with
         | none => "none"
         | some s =>
           if s = "" then "none"
           else (allowedRemoteAuthorities.filter (fun r => s.startsWith r)).getLastD "other") := by
  refine ⟨?_, ?_, ?_⟩
  · cases x with
    | none => simp [cleanRemoteName]
    | some s =>
      by_cases hs : s = ""
      · simp [cleanRemoteName, hs]
      · simp only [cleanRemoteName]
        rw [if_neg hs]
        exact List.mem_cons_of_mem _
          (foldl_pick_mem (fun r => s.startsWith r) allowedRemoteAuthorities "other")
  · cases x with
    | none => simp [cleanRemoteName]
    | some s =>
      by_cases hs : s = ""
      · simp [cleanRemoteName, hs]
      · simp only [cleanRemoteName]
        rw [if_neg hs]
        constructor
        · intro h
          have hmem := foldl_pick_mem (fun r => s.startsWith r) allowedRemoteAuthorities "other"
          rw [h] at hmem
          exact absurd hmem (by decide)
        · rintro (h | h)
          · exact absurd h (by simp)
          · exact absurd (Option.some.inj h) hs
  · cases x with
    | none => rfl
    | some s =>
      by_cases hs : s = ""
      · simp [cleanRemoteName, hs]
      · simp only [cleanRemoteName]
        rw [if_neg hs, if_neg hs]
        exact foldl_pick_lastFilter (fun r => s.startsWith r) allowedRemoteAuthorities "other"

/-- C10 (code bug): when the vscode.git extension is not installed,
performIsIgnoredCheck rejects with a TypeError instead of resolving to
false, because the .exports access happens before the null check and
outside the try/catch; its own log message documents the intent to
resolve false in that case. -/
theorem performIsIgnoredCheck_rejects_when_git_extension_missing :
    performIsIgnoredCheck
      { getWorkspaceFolder := fun _ => some ⟨"folderA", "file:///a"⟩,
        gitExtension := none,
        fsPath := fun u => u }
      (fun _ _ => Except.ok false) "file:///a/src/main.ts" = Except.error () := rfl

end SonarLint
